import Mathlib

/-!
Verification of the sonic client core (channel + pool) against its
natural-language specification.

The embedding works over `List Char`, which models Go's `[]rune` view of a
string (one element per Unicode scalar value).  Errors are modelled by the
`GoErr` type below; `Option GoErr` models a Go `error` result (`none` = nil)
and `Except GoErr α` models a `(α, error)` pair where the value is only
meaningful on success.
-/

set_option maxRecDepth 4000

/-- Error values that occur in the modelled code paths.  `eof` is the
`io.EOF` sentinel; `errTimeout` is the pool's `ErrTimeout`; `invalidResponse`
is `ErrInvalidResponse`; `protoErr m` is the error built from an `ERR `
response line with trimmed reason `m`; `rangeErr s` is the `strconv` range
error returned by `Atoi` on an out-of-range numeral `s`; `other` stands for
any other transport error value. -/
inductive GoErr where
  | eof
  | errTimeout
  | invalidResponse
  | protoErr (msg : List Char)
  | rangeErr (num : List Char)
  | other (tag : Nat)
deriving DecidableEq, Repr

/-- Model of Go `unicode.IsSpace` restricted to the Latin-1 range, which is
the full behaviour on the inputs that occur in this protocol (the code never
feeds characters above U+00A0 to `strings.TrimSpace`). -/
def goIsSpace (c : Char) : Bool :=
  c = ' ' || c = '\t' || c = '\n' || c = '\x0b' || c = '\x0c' || c = '\r' ||
  c = '\x85' || c = '\xa0'

/-- Model of Go `strings.TrimSpace` on the rune view: drop whitespace runes
from both ends. -/
def trimSpace (s : List Char) : List Char :=
  ((s.dropWhile goIsSpace).reverse.dropWhile goIsSpace).reverse

/-- Model of Go `strings.ReplaceAll(s, old, new)` for a single-rune `old`
pattern: every occurrence of `pat` is replaced by `rep`, left to right. -/
def replaceAll (pat : Char) (rep : List Char) : List Char → List Char
  | [] => []
  | c :: cs => (if c = pat then rep else [c]) ++ replaceAll pat rep cs

/-- Model of `channel.Escape` (client.go): replace backslash by double
backslash, then newline by backslash-n, then double quote by
backslash-quote, in that order. -/
def Escape (s : List Char) : List Char :=
  replaceAll '"' ['\\', '"']
    (replaceAll '\n' ['\\', 'n']
      (replaceAll '\\' ['\\', '\\'] s))

/-- Loop body of `channel.Split` (client.go).  The Go loop is
`for i := 0; i < len(rs); i += maxRunes { nn := i + maxRunes; if nn > len(rs)
{ nn = len(rs) }; ss = append(ss, string(rs[i:nn])) }`.  The slice
`rs[i:nn]` with `nn = min (i+maxRunes) len` is `(rs.drop i).take maxRunes`.
`fuel` bounds the number of iterations the model is willing to execute;
`none` means the Go loop has not terminated within `fuel` iterations (for
`maxRunes ≥ 1` a fuel of `rs.length` always suffices, proved below; for
`maxRunes = 0` the loop never terminates on non-empty input because `i`
never advances). -/
def splitGo (maxRunes : Nat) (rs : List Char) : Nat → Nat → List (List Char) → Option (List (List Char))
  | fuel, i, acc =>
    if i < rs.length then
      match fuel with
      | 0 => none
      | fuel' + 1 => splitGo maxRunes rs fuel' (i + maxRunes) (acc ++ [(rs.drop i).take maxRunes])
    else some acc

/-- Model of `channel.Split` (client.go) with rune budget `maxRunes`:
runs the source loop with enough fuel for every terminating execution. -/
def Split (maxRunes : Nat) (rs : List Char) : Option (List (List Char)) :=
  splitGo maxRunes rs rs.length 0 []

/-- Result of one `channel.Read` (client.go) given the raw outcome of
`bufio.Reader.ReadString('\n')`, paired with the list of observer
(`logFn`) invocations made during the call.  A raw line that begins with
the four bytes `ERR ` is turned into a protocol error with the trimmed
remainder and the observer is not invoked; otherwise the trimmed line is
logged and returned. -/
def channelReadModel (raw : Except GoErr (List Char)) :
    Except GoErr (List Char) × List (List Char) :=
  match raw with
  | .error e => (.error e, [])
  | .ok s =>
    if s.take 4 = ['E', 'R', 'R', ' '] then
      (.error (.protoErr (trimSpace (s.drop 4))), [])
    else
      (.ok (trimSpace s), [trimSpace s])

/-- Result of one `channel.Write` (client.go) given the transport write
outcome, paired with the observer invocations: the raw line is logged
before the terminator is appended, regardless of the write outcome. -/
def channelWriteModel (writeRes : Option GoErr) (s : List Char) :
    Except GoErr Unit × List (List Char) :=
  (match writeRes with
   | some e => .error e
   | none => .ok (), [s])

/-- Digit test used by the `[0-9]` character class of `bufferRegex`. -/
def isDigit09 (c : Char) : Bool := '0' ≤ c && c ≤ '9'

/-- Scanner for the anchored Go regular expression
`^.+buffer\(([0-9]+)\)$` after the final `)` has been stripped.  The input
`rev` is the rest of the line in reverse order; `dAcc` holds the digits
consumed so far (in forward order).  Greedy `.+` takes the longest possible
preamble, therefore the capture group is the shortest digit run that is
immediately preceded by the literal `buffer(` with a non-empty, newline-free
preamble before it (`.` does not match a newline, and the expression is
anchored to the whole line).  Returns the captured digits. -/
def findCapture : List Char → List Char → Option (List Char)
  | c :: rest, dAcc =>
    if isDigit09 c then
      let d := c :: dAcc
      if rest.take 7 = ['(', 'r', 'e', 'f', 'f', 'u', 'b'] ∧
         rest.drop 7 ≠ [] ∧ (rest.drop 7).all (· ≠ '\n') then
        some d
      else
        findCapture rest d
    else none
  | [], _ => none

/-- Result of `bufferRegex.FindStringSubmatch` (client.go): `some d` when the
line matches `^.+buffer\(([0-9]+)\)$` with capture `d`, `none` otherwise. -/
def bufferCapture (s : List Char) : Option (List Char) :=
  match s.reverse with
  | ')' :: rest => findCapture rest []
  | _ => none

/-- Numeric value of a digit string. -/
def digitsToNat (d : List Char) : Nat :=
  d.foldl (fun n c => n * 10 + (c.toNat - 48)) 0

/-- Model of `parseMaxRunes` (client.go).  On a regex mismatch the result is
`ErrInvalidResponse`.  On a match, `strconv.Atoi` is applied to the captured
digit string; on a 64-bit platform it fails with a range error when the
value exceeds the maximum signed 64-bit integer, and that error — not
`ErrInvalidResponse` — is returned.  On success the rune budget is
`b / 2 / 4`. -/
def parseMaxRunes (msg : List Char) : Except GoErr Nat :=
  match bufferCapture msg with
  | none => .error .invalidResponse
  | some d =>
    if digitsToNat d < 2 ^ 63 then
      .ok (digitsToNat d / 2 / 4)
    else
      .error (.rangeErr d)

/-- Outcome of `newChannel` (client.go): the result (`ok maxRunes` or the
error) and whether the underlying connection was closed before returning. -/
structure NewChanResult where
  result : Except GoErr Nat
  closed : Bool
deriving Repr

/-- Model of `newChannel` (client.go) after a successful dial.  `startWrite`
is the transport outcome of writing the `START` line; `raw1` and `raw2` are
the raw outcomes of the two handshake reads.  On any failure the `close`
helper closes the connection and the error is returned; on success the
parsed rune budget is stored and the connection stays open. -/
def newChannel (startWrite : Option GoErr) (raw1 raw2 : Except GoErr (List Char)) :
    NewChanResult :=
  match (channelWriteModel startWrite ['S', 'T', 'A', 'R', 'T']).1 with
  | .error e => ⟨.error e, true⟩
  | .ok _ =>
    match (channelReadModel raw1).1 with
    | .error e => ⟨.error e, true⟩
    | .ok _ =>
      match (channelReadModel raw2).1 with
      | .error e => ⟨.error e, true⟩
      | .ok res =>
        match parseMaxRunes res with
        | .error e => ⟨.error e, true⟩
        | .ok mr => ⟨.ok mr, false⟩

/-- Model of `channel.Close` (client.go): write `QUIT`, read the
acknowledgement, then close the transport.  Inputs are the outcomes the
environment produces for the quit write (`writeRes`), the acknowledgement
read (`ackRaw`, fed through `channelReadModel`), and the transport close
(`connCloseRes`).  The boolean records whether `conn.Close()` was reached. -/
def channelClose (writeRes : Option GoErr) (ackRaw : Except GoErr (List Char))
    (connCloseRes : Option GoErr) : Except GoErr Unit × Bool :=
  match writeRes with
  | some e => (.error e, false)
  | none =>
    match (channelReadModel ackRaw).1 with
    | .error e => (.error e, false)
    | .ok _ =>
      match connCloseRes with
      | some e => (.error e, true)
      | none => (.ok (), true)

/-- State of a `Pool` (pool package): the idle channels sitting in the
buffered Go channel `items` (a FIFO queue, modelled front = next to be
received), the created-count `curSize`, and the capacity `maxSize`.
Channels are identified by natural numbers.  `curSize` and `maxSize` are Go
`int`s, modelled as unbounded integers. -/
structure PoolState where
  items : List Nat
  curSize : Int
  maxSize : Int
deriving DecidableEq, Repr

/-- Model of `pool.New`: capacity at most 0 is normalized to 1, no channels
are created eagerly, the created-count starts at 0. -/
def Pool.New (size : Int) : PoolState :=
  { items := []
    curSize := 0
    maxSize := if size ≤ 0 then 1 else size }

/-- Model of `Pool.new`: under the lock, if the created-count has reached
capacity do nothing; otherwise run the factory (its outcome is the
parameter `fac`), and on success append the new channel to the idle queue
and increment the created-count; a factory error is returned unchanged with
no state change. -/
def Pool.grow (fac : Except GoErr Nat) (p : PoolState) : PoolState × Option GoErr :=
  if p.curSize ≥ p.maxSize then (p, none)
  else
    match fac with
    | .error e => (p, some e)
    | .ok c => ({ p with items := p.items ++ [c], curSize := p.curSize + 1 }, none)

/-- Model of `Pool.next`: if no channel is idle, try to create one; a
creation error is returned as is.  Then receive an idle channel; in this
sequential model an empty idle queue at that point can only be refilled by
the timeout elapsing, so it yields `ErrTimeout`. -/
def Pool.next (fac : Except GoErr Nat) (p : PoolState) : PoolState × Except GoErr Nat :=
  let step := if p.items.length < 1 then Pool.grow fac p else (p, none)
  match step.2 with
  | some e => (step.1, .error e)
  | none =>
    match step.1.items with
    | c :: rest => ({ step.1 with items := rest }, .ok c)
    | [] => (step.1, .error .errTimeout)

/-- Observable events of a pool operation: `closed c r` records that
`Close` was called on channel `c` and returned `r` (a value the pool
discards); `restored c` records that `c` was appended back to the idle
queue. -/
inductive Event where
  | closed (c : Nat) (res : Option GoErr)
  | restored (c : Nat)
deriving DecidableEq, Repr

/-- Model of `Pool.remove`: under the lock, call `Close` on the channel —
its result is recorded in the event but otherwise discarded — and decrement
the created-count.  The channel is not put back in the idle queue. -/
def Pool.removeChan (closeRes : Option GoErr) (c : Nat) (p : PoolState) :
    PoolState × List Event :=
  ({ p with curSize := p.curSize - 1 }, [Event.closed c closeRes])

/-- Model of `Pool.restore`: append the channel back to the idle queue. -/
def Pool.restore (c : Nat) (p : PoolState) : PoolState :=
  { p with items := p.items ++ [c] }

/-- Model of `Pool.Exec`: acquire a channel, run the operation (`fnErr` is
the error it returns, `closeRes` the outcome `Close` would produce if
called), and evict exactly when the operation's error is the `io.EOF`
sentinel, otherwise restore.  Returns the new state, the error handed to
the caller, and the events. -/
def Pool.ExecM (fac : Except GoErr Nat) (fnErr : Option GoErr)
    (closeRes : Option GoErr) (p : PoolState) :
    PoolState × Option GoErr × List Event :=
  match Pool.next fac p with
  | (p1, .error e) => (p1, some e, [])
  | (p1, .ok c) =>
    if fnErr = some GoErr.eof then
      let r := Pool.removeChan closeRes c p1
      (r.1, some GoErr.eof, r.2)
    else
      (Pool.restore c p1, fnErr, [Event.restored c])

/-- Model of `Pool.Query`: identical to `Pool.Exec` but threading the
operation's result value through (`fnRes`); the result is returned to the
caller together with the error on both the evict and the restore path. -/
def Pool.QueryM (fac : Except GoErr Nat) (fnRes : Nat) (fnErr : Option GoErr)
    (closeRes : Option GoErr) (p : PoolState) :
    PoolState × Option Nat × Option GoErr × List Event :=
  match Pool.next fac p with
  | (p1, .error e) => (p1, none, some e, [])
  | (p1, .ok c) =>
    if fnErr = some GoErr.eof then
      let r := Pool.removeChan closeRes c p1
      (r.1, some fnRes, some GoErr.eof, r.2)
    else
      (Pool.restore c p1, some fnRes, fnErr, [Event.restored c])

/-- One pool operation of a sequential trace, with the environment's choices
for the factory outcome, the operation's result, and the close outcome. -/
inductive PoolOp where
  | exec (fac : Except GoErr Nat) (fnErr : Option GoErr) (closeRes : Option GoErr)
  | query (fac : Except GoErr Nat) (fnRes : Nat) (fnErr : Option GoErr) (closeRes : Option GoErr)

/-- State transition of one pool operation. -/
def Pool.step (p : PoolState) : PoolOp → PoolState
  | .exec fac fnErr closeRes => (Pool.ExecM fac fnErr closeRes p).1
  | .query fac fnRes fnErr closeRes => (Pool.QueryM fac fnRes fnErr closeRes p).1

/-- State after a sequence of pool operations. -/
def Pool.run (p : PoolState) (ops : List PoolOp) : PoolState :=
  ops.foldl Pool.step p

/-- C8: `Escape` is exactly the three single-character replacements —
backslash to double backslash, then newline to backslash-n, then double
quote to backslash-quote, in that order — and on the input
`a \ b newline c " d` it produces `a \ \ b \ n c \ " d`. -/
theorem escape_three_pass_order (s : List Char) :
    Escape s =
      replaceAll '"' ['\\', '"']
        (replaceAll '\n' ['\\', 'n']
          (replaceAll '\\' ['\\', '\\'] s)) ∧
    Escape ['a', '\\', 'b', '\n', 'c', '"', 'd'] =
      ['a', '\\', '\\', 'b', '\\', 'n', 'c', '\\', '"', 'd'] :=
  ⟨rfl, by decide⟩

/-- C5: with a rune budget of 0 the `Split` loop never terminates on the
non-empty text `"a"`: the loop index is advanced by the budget, so it
stays at 0 and the guard `i < len(rs)` stays true — no amount of fuel makes
the loop finish, contradicting the specified empty-sequence result. -/
theorem split_zero_budget_diverges :
    (∀ (fuel : Nat) (acc : List (List Char)), splitGo 0 ['a'] fuel 0 acc = none) ∧
    Split 0 ['a'] = none := by
  constructor
  · intro fuel
    induction fuel with
    | zero => intro acc; rfl
    | succ n ih =>
      intro acc
      rw [splitGo]
      simpa using ih (acc ++ [[]])
  · rfl

/-- C9 counterexample: a received line that starts with `ERR ` is not
passed to the observer — `Read` on the raw line `ERR oops\r\n` makes no
`logFn` call at all, so the observer is not invoked with every line read. -/
theorem read_err_line_skips_observer :
    (channelReadModel (.ok ['E', 'R', 'R', ' ', 'o', 'o', 'p', 's', '\r', '\n'])).2 = [] ∧
    (channelReadModel (.ok ['E', 'R', 'R', ' ', 'o', 'o', 'p', 's', '\r', '\n'])).2 ≠
      [trimSpace ['E', 'R', 'R', ' ', 'o', 'o', 'p', 's', '\r', '\n']] := by
  constructor
  · rfl
  · decide

/-- C9 amended: `Write` invokes the observer with the raw line (before the
terminator) on every call; `Read` invokes it with the trimmed line for
every successfully read line that does not start with `ERR `, and makes no
observer call for `ERR ` lines or for read failures. -/
theorem observer_invocations (s : List Char) (w : Option GoErr) (l : List Char) (e : GoErr) :
    (channelWriteModel w s).2 = [s] ∧
    (l.take 4 ≠ ['E', 'R', 'R', ' '] → (channelReadModel (.ok l)).2 = [trimSpace l]) ∧
    (l.take 4 = ['E', 'R', 'R', ' '] → (channelReadModel (.ok l)).2 = []) ∧
    (channelReadModel (.error e)).2 = [] := by
  refine ⟨rfl, ?_, ?_, rfl⟩
  · intro h
    simp [channelReadModel, h]
  · intro h
    simp [channelReadModel, h]

/-- Witness for the amended C9 statement at concrete lines. -/
theorem observer_invocations_witness :
    (channelReadModel (.ok ['P', 'O', 'N', 'G', '\r', '\n'])).2 =
      [trimSpace ['P', 'O', 'N', 'G', '\r', '\n']] ∧
    (channelReadModel (.ok ['E', 'R', 'R', ' ', 'x', '\n'])).2 = [] := by
  have h1 := (observer_invocations ['x'] none ['P', 'O', 'N', 'G', '\r', '\n'] GoErr.eof).2.1
  have h2 := (observer_invocations ['x'] none ['E', 'R', 'R', ' ', 'x', '\n'] GoErr.eof).2.2.1
  exact ⟨h1 (by decide), h2 (by decide)⟩

/-- C4 counterexample: when the quit write succeeds but the
acknowledgement read fails with end-of-stream, `channel.Close` returns the
read error without ever reaching `conn.Close()` — the transport is not
closed on that path. -/
theorem close_leaks_on_read_failure :
    (channelClose none (.error GoErr.eof) none).2 = false ∧
    (channelClose none (.error GoErr.eof) none).1 = .error GoErr.eof :=
  ⟨rfl, rfl⟩

/-- C4 amended: `channel.Close` closes the transport exactly when the quit
write and the acknowledgement read both succeed; if the write fails, or the
read fails (including an `ERR ` acknowledgement), that error is returned
and the transport is left open by `Close`. -/
theorem close_transport_paths (w : Option GoErr) (r : Except GoErr (List Char))
    (cc : Option GoErr) :
    ((channelClose w r cc).2 = true ↔ w = none ∧ ∃ t, (channelReadModel r).1 = .ok t) ∧
    (∀ e, w = some e → channelClose w r cc = (.error e, false)) ∧
    (w = none → ∀ e, (channelReadModel r).1 = .error e →
      channelClose w r cc = (.error e, false)) := by
  cases w with
  | some e => simp [channelClose]
  | none =>
    cases hr : (channelReadModel r).1 with
    | error e =>
      refine ⟨?_, ?_, ?_⟩
      · simp [channelClose, hr]
      · intro e' h
        exact absurd h (by simp)
      · intro _ e' he
        cases he
        simp [channelClose, hr]
    | ok t =>
      refine ⟨?_, ?_, ?_⟩
      · cases cc with
        | some e => simp [channelClose, hr]
        | none => simp [channelClose, hr]
      · intro e' h
        exact absurd h (by simp)
      · intro _ e' he
        exact absurd he (by simp)

/-- Witness for the amended C4 statement: a failing quit write propagates
its error and the transport stays open. -/
theorem close_transport_paths_witness :
    channelClose (some GoErr.eof) (.ok []) none = (.error GoErr.eof, false) :=
  (close_transport_paths (some GoErr.eof) (.ok []) none).2.1 GoErr.eof rfl

/-- C6 counterexample: a second handshake line whose captured `<N>` is the
20-digit numeral `99999999999999999999` matches the buffer pattern but
overflows `strconv.Atoi`, so construction fails with the `strconv` range
error rather than `ErrInvalidResponse` (the connection is still closed). -/
theorem parse_overflow_not_invalid_response :
    (newChannel none (.ok "CONNECTED\r\n".data)
        (.ok "STARTED search protocol(1) buffer(99999999999999999999)\r\n".data)).result =
      .error (GoErr.rangeErr "99999999999999999999".data) ∧
    GoErr.rangeErr "99999999999999999999".data ≠ GoErr.invalidResponse ∧
    (newChannel none (.ok "CONNECTED\r\n".data)
        (.ok "STARTED search protocol(1) buffer(99999999999999999999)\r\n".data)).closed =
      true := by
  refine ⟨rfl, by decide, rfl⟩

/-- C6 amended: when the trimmed second handshake line does not match the
trailing `buffer(<N>)` pattern, construction fails with
`ErrInvalidResponse`; when it matches but `<N>` exceeds the signed 64-bit
range, construction fails with the integer range error instead; in both
cases the connection is closed before `newChannel` returns. -/
theorem handshake_parse_failure_closes (l1 l2 : List Char)
    (h1 : l1.take 4 ≠ ['E', 'R', 'R', ' '])
    (h2 : l2.take 4 ≠ ['E', 'R', 'R', ' ']) :
    (bufferCapture (trimSpace l2) = none →
      newChannel none (.ok l1) (.ok l2) = ⟨.error GoErr.invalidResponse, true⟩) ∧
    (∀ d, bufferCapture (trimSpace l2) = some d → 2 ^ 63 ≤ digitsToNat d →
      newChannel none (.ok l1) (.ok l2) = ⟨.error (GoErr.rangeErr d), true⟩) := by
  constructor
  · intro hc
    simp [newChannel, channelWriteModel, channelReadModel, h1, h2, parseMaxRunes, hc]
  · intro d hc hge
    have hnot : ¬ digitsToNat d < 2 ^ 63 := Nat.not_lt.mpr hge
    norm_num at hnot
    simp [newChannel, channelWriteModel, channelReadModel, h1, h2, parseMaxRunes, hc,
      Nat.not_lt.mpr hnot]

/-- Witness for the amended C6 statement: the structurally invalid line of
the repository's own test (`STARTED invalid`) fails with
`ErrInvalidResponse` and the connection is closed. -/
theorem handshake_parse_failure_closes_witness :
    newChannel none (.ok "CONNECTED\r\n".data) (.ok "STARTED invalid\r\n".data) =
      ⟨.error GoErr.invalidResponse, true⟩ :=
  (handshake_parse_failure_closes "CONNECTED\r\n".data "STARTED invalid\r\n".data
    (by decide) (by decide)).1 (by decide)

/-- C7 counterexample: a successful handshake whose negotiated buffer size
is 4 yields the rune budget `4 / 2 / 4 = 0`: the channel is returned with a
budget that is not strictly positive. -/
theorem handshake_zero_budget_accepted :
    (newChannel none (.ok "CONNECTED\r\n".data)
        (.ok "STARTED search protocol(1) buffer(4)\r\n".data)).result = .ok 0 ∧
    (newChannel none (.ok "CONNECTED\r\n".data)
        (.ok "STARTED search protocol(1) buffer(4)\r\n".data)).closed = false ∧
    ¬ 0 < (0 : Nat) :=
  ⟨rfl, rfl, by decide⟩

/-- C7 amended: a successful handshake stores the rune budget
`N / 2 / 4` computed from the negotiated size `N` and leaves the connection
open; the budget is always non-negative but it is strictly positive exactly
when `N ≥ 8`. -/
theorem handshake_budget_formula (l1 l2 : List Char) (d : List Char)
    (h1 : l1.take 4 ≠ ['E', 'R', 'R', ' '])
    (h2 : l2.take 4 ≠ ['E', 'R', 'R', ' '])
    (hc : bufferCapture (trimSpace l2) = some d)
    (hlt : digitsToNat d < 2 ^ 63) :
    (newChannel none (.ok l1) (.ok l2)).result = .ok (digitsToNat d / 2 / 4) ∧
    (newChannel none (.ok l1) (.ok l2)).closed = false ∧
    (0 < digitsToNat d / 2 / 4 ↔ 8 ≤ digitsToNat d) := by
  have hlt' := hlt
  norm_num at hlt'
  refine ⟨?_, ?_, ?_⟩
  · simp [newChannel, channelWriteModel, channelReadModel, h1, h2, parseMaxRunes, hc, hlt']
  · simp [newChannel, channelWriteModel, channelReadModel, h1, h2, parseMaxRunes, hc, hlt']
  · rw [Nat.div_div_eq_div_mul]
    exact Nat.div_pos_iff (by decide)

/-- Witness for the amended C7 statement: the spec's own example, a
negotiated buffer of 20000, gives the positive budget 2500. -/
theorem handshake_budget_formula_witness :
    (newChannel none (.ok "CONNECTED\r\n".data)
        (.ok "STARTED search protocol(1) buffer(20000)\r\n".data)).result =
      .ok (digitsToNat "20000".data / 2 / 4) ∧
    (newChannel none (.ok "CONNECTED\r\n".data)
        (.ok "STARTED search protocol(1) buffer(20000)\r\n".data)).closed = false ∧
    (0 < digitsToNat "20000".data / 2 / 4 ↔ 8 ≤ digitsToNat "20000".data) :=
  handshake_budget_formula "CONNECTED\r\n".data
    "STARTED search protocol(1) buffer(20000)\r\n".data "20000".data
    (by decide) (by decide) (by decide) (by decide)

/-- Soundness of the `Split` loop under sufficient fuel: from index `i`
with accumulated chunks `acc`, the loop terminates and produces `acc`
followed by chunks whose concatenation is the remaining text, each of at
most `m` runes. -/
theorem splitGo_sound (m : Nat) (rs : List Char) :
    ∀ (fuel i : Nat) (acc : List (List Char)),
      rs.length ≤ i + fuel * m →
      (∀ c ∈ acc, c.length ≤ m) →
      ∃ out, splitGo m rs fuel i acc = some out ∧
        out.flatten = acc.flatten ++ rs.drop i ∧
        ∀ c ∈ out, c.length ≤ m := by
  intro fuel
  induction fuel with
  | zero =>
    intro i acc hfuel hacc
    have hi : ¬ i < rs.length := by omega
    refine ⟨acc, ?_, ?_, hacc⟩
    · rw [splitGo, if_neg hi]
    · rw [List.drop_eq_nil_of_le (by omega), List.append_nil]
  | succ n ih =>
    intro i acc hfuel hacc
    by_cases hi : i < rs.length
    · have hfuel' : rs.length ≤ (i + m) + n * m := by
        rw [Nat.succ_mul] at hfuel
        omega
      have hacc' : ∀ c ∈ acc ++ [(rs.drop i).take m], c.length ≤ m := by
        intro c hcmem
        rcases List.mem_append.mp hcmem with hcl | hcr
        · exact hacc c hcl
        · rcases List.mem_singleton.mp hcr with rfl
          simp
      obtain ⟨out, hrun, hjoin, hlen⟩ := ih (i + m) (acc ++ [(rs.drop i).take m]) hfuel' hacc'
      refine ⟨out, ?_, ?_, hlen⟩
      · rw [splitGo, if_pos hi]
        exact hrun
      · rw [hjoin, List.flatten_append]
        simp only [List.flatten, List.append_nil]
        rw [List.append_assoc]
        congr 1
        have hdd : rs.drop (i + m) = (rs.drop i).drop m := by
          rw [List.drop_drop, Nat.add_comm]
        rw [hdd, List.take_append_drop]
    · refine ⟨acc, ?_, ?_, hacc⟩
      · rw [splitGo, if_neg hi]
      · rw [List.drop_eq_nil_of_le (by omega), List.append_nil]

/-- C3: for every positive rune budget, `Split` terminates, its chunks
concatenate back to the input rune sequence, every chunk holds at most the
budget many runes (multi-byte characters are whole runes, so none is
split), and `Split` of the empty text is the empty sequence. -/
theorem split_roundtrip (m : Nat) (s : List Char) (hm : 0 < m) :
    (∃ out, Split m s = some out ∧ out.flatten = s ∧ ∀ c ∈ out, c.length ≤ m) ∧
    Split m [] = some [] := by
  constructor
  · have hfuel : s.length ≤ 0 + s.length * m := by
      have := Nat.mul_le_mul_left s.length hm
      simpa using this
    obtain ⟨out, hrun, hjoin, hlen⟩ :=
      splitGo_sound m s s.length 0 [] hfuel (by simp)
    exact ⟨out, hrun, by simpa using hjoin, hlen⟩
  · rfl

/-- Witness for C3 at budget 2 and the five-rune text `abcde`. -/
theorem split_roundtrip_witness :
    (∃ out, Split 2 ['a', 'b', 'c', 'd', 'e'] = some out ∧
      out.flatten = ['a', 'b', 'c', 'd', 'e'] ∧ ∀ c ∈ out, c.length ≤ 2) ∧
    Split 2 [] = some [] :=
  split_roundtrip 2 ['a', 'b', 'c', 'd', 'e'] (by decide)

/-- C1: for any pool state in which acquisition yields channel `c`, an
operation returning the `io.EOF` sentinel makes `Exec`/`Query` evict the
channel — exactly one `Close` call, created-count decremented, channel not
returned to the idle queue — and hands `io.EOF` back to the caller, while
any other outcome (nil, protocol error, other transport error) makes them
append the channel back to the idle queue with no `Close` call, no count
change, and that outcome returned to the caller. -/
theorem pool_eof_eviction_rule (p p1 : PoolState) (fac : Except GoErr Nat)
    (fnErr : Option GoErr) (res : Nat) (cr : Option GoErr) (c : Nat)
    (hnext : Pool.next fac p = (p1, .ok c)) :
    (fnErr = some GoErr.eof →
      Pool.ExecM fac fnErr cr p =
        ({ p1 with curSize := p1.curSize - 1 }, some GoErr.eof, [Event.closed c cr]) ∧
      Pool.QueryM fac res fnErr cr p =
        ({ p1 with curSize := p1.curSize - 1 }, some res, some GoErr.eof,
          [Event.closed c cr])) ∧
    (fnErr ≠ some GoErr.eof →
      Pool.ExecM fac fnErr cr p =
        ({ p1 with items := p1.items ++ [c] }, fnErr, [Event.restored c]) ∧
      Pool.QueryM fac res fnErr cr p =
        ({ p1 with items := p1.items ++ [c] }, some res, fnErr, [Event.restored c])) := by
  constructor
  · intro heof
    constructor
    · simp [Pool.ExecM, hnext, heof, Pool.removeChan]
    · simp [Pool.QueryM, hnext, heof, Pool.removeChan]
  · intro hne
    constructor
    · simp [Pool.ExecM, hnext, hne, Pool.restore]
    · simp [Pool.QueryM, hnext, hne, Pool.restore]

/-- Witness for C1 on a fresh pool of capacity 1 whose factory yields
channel 7: an `io.EOF` operation evicts it, a protocol error restores it. -/
theorem pool_eof_eviction_rule_witness :
    (Pool.ExecM (.ok 7) (some GoErr.eof) none (Pool.New 1) =
      ({ items := [], curSize := 0, maxSize := 1 }, some GoErr.eof,
        [Event.closed 7 none]) ∧
     Pool.QueryM (.ok 7) 5 (some GoErr.eof) none (Pool.New 1) =
      ({ items := [], curSize := 0, maxSize := 1 }, some 5, some GoErr.eof,
        [Event.closed 7 none])) ∧
    Pool.ExecM (.ok 7) (some (GoErr.protoErr ['x'])) none (Pool.New 1) =
      ({ items := [7], curSize := 1, maxSize := 1 }, some (GoErr.protoErr ['x']),
        [Event.restored 7]) := by
  have h := pool_eof_eviction_rule (Pool.New 1)
    { items := [], curSize := 1, maxSize := 1 } (.ok 7) (some GoErr.eof) 5 none 7 rfl
  have h2 := pool_eof_eviction_rule (Pool.New 1)
    { items := [], curSize := 1, maxSize := 1 } (.ok 7) (some (GoErr.protoErr ['x']))
    5 none 7 rfl
  exact ⟨h.1 rfl, (h2.2 (by simp)).1⟩

/-- C10: when an operation run by `Exec` or `Query` returns the `io.EOF`
sentinel, the evicted channel's `Close` outcome is discarded: for every
possible `Close` result the caller still receives `io.EOF` (and, for
`Query`, the operation's result value) and the created-count is
decremented. -/
theorem pool_eviction_discards_close_error (p p1 : PoolState) (fac : Except GoErr Nat)
    (c : Nat) (res : Nat) (hnext : Pool.next fac p = (p1, .ok c)) :
    ∀ cr : Option GoErr,
      Pool.ExecM fac (some GoErr.eof) cr p =
        ({ p1 with curSize := p1.curSize - 1 }, some GoErr.eof, [Event.closed c cr]) ∧
      Pool.QueryM fac res (some GoErr.eof) cr p =
        ({ p1 with curSize := p1.curSize - 1 }, some res, some GoErr.eof,
          [Event.closed c cr]) := by
  intro cr
  constructor
  · simp [Pool.ExecM, hnext, Pool.removeChan]
  · simp [Pool.QueryM, hnext, Pool.removeChan]

/-- Witness for C10: the close error is discarded — the caller still sees
`io.EOF` whether `Close` fails or succeeds. -/
theorem pool_eviction_discards_close_error_witness :
    (Pool.ExecM (.ok 7) (some GoErr.eof) (some (GoErr.other 3)) (Pool.New 1) =
      ({ items := [], curSize := 0, maxSize := 1 }, some GoErr.eof,
        [Event.closed 7 (some (GoErr.other 3))]) ∧
     Pool.QueryM (.ok 7) 5 (some GoErr.eof) (some (GoErr.other 3)) (Pool.New 1) =
      ({ items := [], curSize := 0, maxSize := 1 }, some 5, some GoErr.eof,
        [Event.closed 7 (some (GoErr.other 3))])) ∧
    Pool.ExecM (.ok 7) (some GoErr.eof) none (Pool.New 1) =
      ({ items := [], curSize := 0, maxSize := 1 }, some GoErr.eof,
        [Event.closed 7 none]) := by
  have h := pool_eviction_discards_close_error (Pool.New 1)
    { items := [], curSize := 1, maxSize := 1 } (.ok 7) 7 5 rfl
  exact ⟨h (some (GoErr.other 3)), (h none).1⟩

/-- Creation preserves the capacity field. -/
theorem grow_maxSize (fac : Except GoErr Nat) (p : PoolState) :
    (Pool.grow fac p).1.maxSize = p.maxSize := by
  unfold Pool.grow
  split
  · rfl
  · cases fac <;> rfl

/-- Creation preserves the capacity bound: the count is incremented only
below capacity. -/
theorem grow_curSize_le (fac : Except GoErr Nat) (p : PoolState)
    (h : p.curSize ≤ p.maxSize) :
    (Pool.grow fac p).1.curSize ≤ (Pool.grow fac p).1.maxSize := by
  unfold Pool.grow
  split
  · exact h
  · rename_i hlt
    cases fac with
    | error e => exact h
    | ok c => simpa using by omega

/-- Acquisition preserves the capacity field. -/
theorem next_maxSize (fac : Except GoErr Nat) (p : PoolState) :
    (Pool.next fac p).1.maxSize = p.maxSize := by
  unfold Pool.next
  by_cases hl : p.items.length < 1 <;> simp only [hl, if_true, if_false, reduceIte]
  · cases hg : (Pool.grow fac p).2 with
    | some e => simpa using (grow_maxSize fac p)
    | none =>
      cases hi : (Pool.grow fac p).1.items with
      | nil => simpa using (grow_maxSize fac p)
      | cons c rest => simpa using (grow_maxSize fac p)
  · cases hi : p.items with
    | nil => rfl
    | cons c rest => rfl

/-- Acquisition preserves the capacity bound. -/
theorem next_curSize_le (fac : Except GoErr Nat) (p : PoolState)
    (h : p.curSize ≤ p.maxSize) :
    (Pool.next fac p).1.curSize ≤ (Pool.next fac p).1.maxSize := by
  unfold Pool.next
  by_cases hl : p.items.length < 1 <;> simp only [hl, if_true, if_false, reduceIte]
  · cases hg : (Pool.grow fac p).2 with
    | some e => simpa using (grow_curSize_le fac p h)
    | none =>
      cases hi : (Pool.grow fac p).1.items with
      | nil => simpa using (grow_curSize_le fac p h)
      | cons c rest => simpa using (grow_curSize_le fac p h)
  · cases hi : p.items with
    | nil => exact h
    | cons c rest => exact h

/-- `Exec` preserves the capacity field. -/
theorem execm_maxSize (fac : Except GoErr Nat) (fe cr : Option GoErr) (p : PoolState) :
    (Pool.ExecM fac fe cr p).1.maxSize = p.maxSize := by
  have hms := next_maxSize fac p
  rcases hn : Pool.next fac p with ⟨p1, r⟩
  rw [hn] at hms
  simp only [] at hms
  cases r with
  | error e => simp [Pool.ExecM, hn, hms]
  | ok c =>
    by_cases hf : fe = some GoErr.eof
    · simp [Pool.ExecM, hn, hf, Pool.removeChan, hms]
    · simp [Pool.ExecM, hn, hf, Pool.restore, hms]

/-- `Exec` preserves the capacity bound. -/
theorem execm_curSize_le (fac : Except GoErr Nat) (fe cr : Option GoErr) (p : PoolState)
    (h : p.curSize ≤ p.maxSize) :
    (Pool.ExecM fac fe cr p).1.curSize ≤ (Pool.ExecM fac fe cr p).1.maxSize := by
  have hle := next_curSize_le fac p h
  rcases hn : Pool.next fac p with ⟨p1, r⟩
  rw [hn] at hle
  simp only [] at hle
  cases r with
  | error e => simpa [Pool.ExecM, hn] using hle
  | ok c =>
    by_cases hf : fe = some GoErr.eof
    · simp [Pool.ExecM, hn, hf, Pool.removeChan]
      omega
    · simpa [Pool.ExecM, hn, hf, Pool.restore] using hle

/-- `Query` preserves the capacity field. -/
theorem querym_maxSize (fac : Except GoErr Nat) (res : Nat) (fe cr : Option GoErr)
    (p : PoolState) :
    (Pool.QueryM fac res fe cr p).1.maxSize = p.maxSize := by
  have hms := next_maxSize fac p
  rcases hn : Pool.next fac p with ⟨p1, r⟩
  rw [hn] at hms
  simp only [] at hms
  cases r with
  | error e => simp [Pool.QueryM, hn, hms]
  | ok c =>
    by_cases hf : fe = some GoErr.eof
    · simp [Pool.QueryM, hn, hf, Pool.removeChan, hms]
    · simp [Pool.QueryM, hn, hf, Pool.restore, hms]

/-- `Query` preserves the capacity bound. -/
theorem querym_curSize_le (fac : Except GoErr Nat) (res : Nat) (fe cr : Option GoErr)
    (p : PoolState) (h : p.curSize ≤ p.maxSize) :
    (Pool.QueryM fac res fe cr p).1.curSize ≤ (Pool.QueryM fac res fe cr p).1.maxSize := by
  have hle := next_curSize_le fac p h
  rcases hn : Pool.next fac p with ⟨p1, r⟩
  rw [hn] at hle
  simp only [] at hle
  cases r with
  | error e => simpa [Pool.QueryM, hn] using hle
  | ok c =>
    by_cases hf : fe = some GoErr.eof
    · simp [Pool.QueryM, hn, hf, Pool.removeChan]
      omega
    · simpa [Pool.QueryM, hn, hf, Pool.restore] using hle

/-- A single trace step preserves the capacity field. -/
theorem step_maxSize_eq (p : PoolState) (op : PoolOp) :
    (Pool.step p op).maxSize = p.maxSize := by
  cases op with
  | exec fac fe cr => exact execm_maxSize fac fe cr p
  | query fac res fe cr => exact querym_maxSize fac res fe cr p

/-- A single trace step preserves the capacity bound. -/
theorem step_curSize_le (p : PoolState) (op : PoolOp) (h : p.curSize ≤ p.maxSize) :
    (Pool.step p op).curSize ≤ (Pool.step p op).maxSize := by
  cases op with
  | exec fac fe cr => exact execm_curSize_le fac fe cr p h
  | query fac res fe cr => exact querym_curSize_le fac res fe cr p h

/-- A trace of operations preserves the capacity field. -/
theorem run_maxSize_eq (ops : List PoolOp) :
    ∀ p : PoolState, (Pool.run p ops).maxSize = p.maxSize := by
  induction ops with
  | nil => intro p; rfl
  | cons op rest ih =>
    intro p
    have : Pool.run p (op :: rest) = Pool.run (Pool.step p op) rest := rfl
    rw [this, ih (Pool.step p op), step_maxSize_eq]

/-- A trace of operations preserves the capacity bound. -/
theorem run_curSize_le (ops : List PoolOp) :
    ∀ p : PoolState, p.curSize ≤ p.maxSize →
      (Pool.run p ops).curSize ≤ (Pool.run p ops).maxSize := by
  induction ops with
  | nil => intro p h; exact h
  | cons op rest ih =>
    intro p h
    have : Pool.run p (op :: rest) = Pool.run (Pool.step p op) rest := rfl
    rw [this]
    exact ih (Pool.step p op) (step_curSize_le p op h)

/-- C2: after any sequence of pool operations starting from a freshly
constructed pool, the created-count never exceeds the capacity, which is
the configured size normalized to at least 1; and a factory failure during
acquisition below capacity is returned to the caller with the state
unchanged — no count increment, no channel added to the idle queue. -/
theorem pool_capacity_invariant (sz : Int) (ops : List PoolOp) :
    (Pool.run (Pool.New sz) ops).curSize ≤ (Pool.run (Pool.New sz) ops).maxSize ∧
    (Pool.run (Pool.New sz) ops).maxSize = (if sz ≤ 0 then 1 else sz) ∧
    1 ≤ (Pool.run (Pool.New sz) ops).maxSize ∧
    (∀ (q : PoolState) (e : GoErr), q.curSize < q.maxSize → q.items.length < 1 →
      Pool.next (.error e) q = (q, .error e)) := by
  have hms : (Pool.run (Pool.New sz) ops).maxSize = (if sz ≤ 0 then 1 else sz) := by
    rw [run_maxSize_eq]
    rfl
  refine ⟨?_, hms, ?_, ?_⟩
  · refine run_curSize_le ops (Pool.New sz) ?_
    simp only [Pool.New]
    split
    · omega
    · omega
  · rw [hms]
    split
    · omega
    · omega
  · intro q e hlt hlen
    simp [Pool.next, Pool.grow, hlen, not_le.mpr hlt]

/-- Witness for C2 on a concrete trace and a concrete below-capacity
factory failure. -/
theorem pool_capacity_invariant_witness :
    (Pool.run (Pool.New 0) [PoolOp.exec (.ok 7) (some GoErr.eof) none]).curSize ≤
      (Pool.run (Pool.New 0) [PoolOp.exec (.ok 7) (some GoErr.eof) none]).maxSize ∧
    Pool.next (.error GoErr.eof) (Pool.New 0) = (Pool.New 0, .error GoErr.eof) :=
  ⟨(pool_capacity_invariant 0 [PoolOp.exec (.ok 7) (some GoErr.eof) none]).1,
   (pool_capacity_invariant 0 []).2.2.2 (Pool.New 0) GoErr.eof (by decide) (by decide)⟩
